import Mathlib

/-!
Verification development for the email_checker repository
(src/email_checker.py).  The definitions below are a shallow embedding
of the code in that file: the modified-UTF-7 mailbox-name decoder
(decode_imap_utf7), the mailbox exclusion test, the per-mailbox
boundary dictionary (uid_dict), the per-mailbox body of the checking
loop in EmailChecker._do_check, the retry/scheduling logic of
_do_check, and the signal handling of EmailChecker.wait.

Strings of the Python program are modeled as Lean String where they
are plain text; the output of the UTF-7 decoder is modeled as a list
of code points (List Nat), because the Python str produced by the
stdlib utf_7 codec may contain lone UTF-16 surrogates, which are not
valid Lean Char values.  Fallible code (code that can raise) returns
Option.
-/

/-! ## UTF7Codec: decode_imap_utf7 (src/email_checker.py lines 397-420) -/

/-- Value of a character in the standard base64 alphabet, none for any
other character.  Models the FROM_BASE64 table of the CPython utf_7
codec, which the source reaches through the call
imap_utf7_text.decode, after the source has replaced every comma with
a slash. -/
def b64Val (c : Char) : Option Nat :=
  if 'A' ≤ c ∧ c ≤ 'Z' then some (c.toNat - 65)
  else if 'a' ≤ c ∧ c ≤ 'z' then some (c.toNat - 97 + 26)
  else if '0' ≤ c ∧ c ≤ '9' then some (c.toNat - 48 + 52)
  else if c = '+' then some 62
  else if c = '/' then some 63
  else none

/-- Map every character of a shifted region through b64Val, failing if
any character is outside the base64 alphabet.  A character outside the
alphabet (or outside ASCII) makes the stdlib codec leave the base64
run or raise; mailbox names coming from a server contain one complete
base64 run per shifted region, and only that modeled domain is needed
here, so any such character is mapped to failure. -/
def mapB64 : List Char → Option (List Nat)
  | [] => some []
  | c :: cs =>
    match b64Val c, mapB64 cs with
    | some v, some vs => some (v :: vs)
    | _, _ => none

/-- Streaming extraction of 16-bit units from a list of 6-bit base64
values, mirroring the base64bits/base64buffer accumulator of the
CPython utf_7 decoder: bits holds the number of pending bits (always
below 16), buf their value.  At the end of the run the decoder rejects
six or more leftover bits (a partial character) and rejects non-zero
padding bits. -/
def b64Units : List Nat → Nat → Nat → Option (List Nat)
  | [], bits, buf =>
    if 6 ≤ bits then none
    else if buf ≠ 0 then none
    else some []
  | v :: vs, bits, buf =>
    let buf2 := buf * 64 + v
    let bits2 := bits + 6
    if 16 ≤ bits2 then
      match b64Units vs (bits2 - 16) (buf2 % 2 ^ (bits2 - 16)) with
      | none => none
      | some rest => some (buf2 / 2 ^ (bits2 - 16) :: rest)
    else
      b64Units vs bits2 buf2

/-- High UTF-16 surrogate test. -/
def isHighSurr (u : Nat) : Bool := decide (0xD800 ≤ u ∧ u < 0xDC00)

/-- Low UTF-16 surrogate test. -/
def isLowSurr (u : Nat) : Bool := decide (0xDC00 ≤ u ∧ u < 0xE000)

/-- Combine UTF-16 code units into code points the way the CPython
utf_7 decoder does: a high surrogate directly followed by a low
surrogate becomes one astral code point; any other surrogate is
emitted as it stands. -/
def combineSurrogates : List Nat → List Nat
  | [] => []
  | [u] => [u]
  | u :: v :: rest =>
    if isHighSurr u then
      if isLowSurr v then
        (0x10000 + (u - 0xD800) * 0x400 + (v - 0xDC00)) :: combineSurrogates rest
      else u :: combineSurrogates (v :: rest)
    else u :: combineSurrogates (v :: rest)

/-- Decoding of one complete shifted region body through the stdlib
utf_7 codec: the source builds a plus sign, the region content, and a
minus sign, and decodes that byte string.  For a single complete
base64 run this is: base64 values, 16-bit unit extraction, surrogate
combination. -/
def utf7SegmentDecode (content : List Char) : Option (List Nat) :=
  match mapB64 content with
  | none => none
  | some vals =>
    match b64Units vals 0 0 with
    | none => none
    | some units => some (combineSurrogates units)

/-- The comma-to-slash substitution the source applies to the region
content before handing it to the utf_7 codec. -/
def swapComma (c : Char) : Char := if c = ',' then '/' else c

/-- The character loop of decode_imap_utf7.  The second argument is
none outside a shifted region, and some content inside one, where
content is the accumulated region body without the leading ampersand
(the source keeps the ampersand in its accumulator and tests for
length one; empty content here is the same test).  At the end of the
input a pending unterminated region is dropped, exactly as the source
only joins the decoded pieces. -/
def dec7Aux : List Char → Option (List Char) → Option (List Nat)
  | [], _ => some []
  | c :: rest, some content =>
    if c = '-' then
      if content = [] then
        (dec7Aux rest none).map (fun r => '&'.toNat :: r)
      else
        match utf7SegmentDecode (content.map swapComma) with
        | none => none
        | some seg => (dec7Aux rest none).map (fun r => seg ++ r)
    else dec7Aux rest (some (content ++ [c]))
  | c :: rest, none =>
    if c = '&' then dec7Aux rest (some [])
    else (dec7Aux rest none).map (fun r => c.toNat :: r)

/-- decode_imap_utf7: decode a mailbox name according to RFC 3501
section 5.1.3.  Output is the list of code points of the resulting
Python str; none models a raised decoding error. -/
def decode_imap_utf7 (s : String) : Option (List Nat) :=
  dec7Aux s.toList none

/-! ## Mailbox exclusion (src/email_checker.py lines 218-228) -/

/-- Python bytes.strip with a quote argument: remove every leading and
trailing double-quote character. -/
def stripQuotes (s : String) : String :=
  String.mk (((s.toList.dropWhile (· = '"')).reverse.dropWhile (· = '"')).reverse)

/-- The exclusion test performed before selecting a mailbox: some flag
is in the configured excluded flags or equals the non-selectable
marker, or otherwise the UTF7-decoded name with surrounding quotes
stripped is among the excluded names.  The name decode runs only when
no flag matched, as in the source short-circuit; none models a
decoding error raised there.  Excluded names are compared as decoded
code-point lists. -/
def isExcludedO (flags : List String) (rawName : String)
    (exFlags : List String) (exNames : List (List Nat)) : Option Bool :=
  if flags.any (fun f => decide (f ∈ exFlags ∨ f = "\\Noselect")) then some true
  else
    match decode_imap_utf7 (stripQuotes rawName) with
    | none => none
    | some nm => some (decide (nm ∈ exNames))

/-! ## UnseenTracker: uid_dict (src/email_checker.py lines 103, 233-239) -/

/-- Lookup in the per-mailbox boundary dictionary; an absent key reads
as zero, as uid_dict is a defaultdict over int. -/
def lookupD : List (String × Nat) → String → Nat
  | [], _ => 0
  | (k, v) :: rest, q => if k = q then v else lookupD rest q

/-- Store a boundary value for a key. -/
def setD : List (String × Nat) → String → Nat → List (String × Nat)
  | [], q, v => [(q, v)]
  | (k, w) :: rest, q, v =>
    if k = q then (q, v) :: rest else (k, w) :: setD rest q v

/-- The advance operation of the tracker: the source assigns the
transport-reported next identifier into uid_dict. -/
def advance (d : List (String × Nat)) (k : String) (v : Nat) : List (String × Nat) :=
  setD d k v

/-- The window query of the tracker: whether a prior boundary exists
(the stored value is non-zero, matching the source truthiness test)
and the boundary itself. -/
def windowFor (d : List (String × Nat)) (k : String) : Bool × Nat :=
  (lookupD d k != 0, lookupD d k)

/-- Apply a sequence of advance calls in order. -/
def applyOps (d : List (String × Nat)) : List (String × Nat) → List (String × Nat)
  | [] => d
  | (k, v) :: rest => applyOps (advance d k v) rest

/-- The values supplied for one key by a sequence of advance calls, in
call order. -/
def valuesFor (ops : List (String × Nat)) (k : String) : List Nat :=
  (ops.filter (fun p => p.1 = k)).map (fun p => p.2)

/-- Last element of a list, with a fallback for the empty list. -/
def lastD : List Nat → Nat → Nat
  | [], dflt => dflt
  | v :: vs, _ => lastD vs v

/-! ## PollCycle: per-mailbox body of _do_check (src/email_checker.py lines 214-272) -/

/-- A message held by a mailbox on the server: its identifier, its
seen flag, and the sender and subject strings of its header after the
delegated header-word decoding (the source treats header parsing and
RFC 2047 decoding as an external capability). -/
structure Message where
  uid : Nat
  seen : Bool
  sender : String
  subject : String
deriving DecidableEq

/-- One listed mailbox together with the transport behavior the cycle
observes on it: the listed attribute flags, the raw (possibly quoted)
name by which uid_dict is keyed, the next-assignable identifier the
server reports after select, whether the unseen search returns
without raising, the identifier list it returns (ascending, as the
protocol sends it), and the full message list of the mailbox in
server order, from which the header fetch over an identifier range is
answered.  Select and the next-identifier query are modeled as
succeeding for every mailbox the cycle reaches. -/
structure MailboxData where
  rawName : String
  flags : List String
  uidnext : Nat
  searchOk : Bool
  searchResult : List Nat
  messages : List Message
deriving DecidableEq

/-- The result of processing one mailbox. -/
structure MailboxOutcome where
  newBoundary : Nat
  criterion : String
  keptUids : List Nat
  didFetch : Bool
  notifications : List (String × String)
  searchRaised : Bool
deriving DecidableEq

/-- The search criterion string built by _do_check from the boundary
read out of uid_dict before it was overwritten: constrained when a
prior boundary exists (is non-zero), unconstrained otherwise. -/
def search_criteria (uidnext : Nat) : String :=
  if uidnext ≠ 0 then "(UNSEEN UID " ++ toString uidnext ++ ":*)" else "(UNSEEN)"

/-- The stale-result guard: a non-empty search result whose last
identifier is below the prior boundary is replaced by the empty
result. -/
def staleFilter (uidnext : Nat) (uids : List Nat) : List Nat :=
  match uids.getLast? with
  | none => uids
  | some l => if l < uidnext then [] else uids

/-- The transport answer to the header fetch over the range from a
starting identifier to the end of the mailbox: every message whose
identifier is at least the start, in mailbox order. -/
def fetchHeaders (msgs : List Message) (start : Nat) : List Message :=
  msgs.filter (fun m => start ≤ m.uid)

/-- The per-mailbox body of the checking loop, after the exclusion
test, for a mailbox the cycle selected.  The uidnext argument is the
prior boundary read out of uid_dict; in the source the dictionary is
overwritten with the server-reported next identifier immediately
afterwards (line 235), then the criterion is built from the saved
prior value (lines 236-239), then the search runs (line 240), so
newBoundary is the server value in every branch, including the branch
where the search raises.  A kept non-empty result leads to a header
fetch from its first identifier to the end of the mailbox and one
notification per fetched header, in fetch order.  The cancellation
flag is modeled as never set. -/
def checkMailbox (uidnext : Nat) (mb : MailboxData) : MailboxOutcome :=
  let crit := search_criteria uidnext
  let newB := mb.uidnext
  if mb.searchOk then
    match staleFilter uidnext mb.searchResult with
    | [] =>
      { newBoundary := newB, criterion := crit, keptUids := [],
        didFetch := false, notifications := [], searchRaised := false }
    | u0 :: us =>
      { newBoundary := newB, criterion := crit, keptUids := u0 :: us,
        didFetch := true,
        notifications := (fetchHeaders mb.messages u0).map (fun m => (m.sender, m.subject)),
        searchRaised := false }
  else
    { newBoundary := newB, criterion := crit, keptUids := [],
      didFetch := false, notifications := [], searchRaised := true }

/-- How one cycle over the mailbox list ended: completed normally, or
an exception was raised while handling the named mailbox (a failed
name decode in the exclusion test, or a raising search). -/
inductive CycleEnd where
  | completed
  | raised (mailbox : String)
deriving DecidableEq

/-- The observable result of one cycle: the boundary dictionary after
the cycle, the per-mailbox outcomes of the mailboxes that were
selected (in order, including a final mailbox whose search raised),
and how the cycle ended. -/
structure CycleResult where
  dict : List (String × Nat)
  outcomes : List (String × MailboxOutcome)
  ended : CycleEnd
deriving DecidableEq

/-- The mailbox loop of _do_check.  Excluded mailboxes are skipped
before select and touch nothing; for a selected mailbox the boundary
entry is overwritten with the server-reported next identifier and the
mailbox body runs; a raising step aborts the loop into the exception
handler with the dictionary as already updated. -/
def runCycleAux (ef : List String) (en : List (List Nat)) :
    List MailboxData → List (String × Nat) → List (String × MailboxOutcome) → CycleResult
  | [], d, acc => ⟨d, acc.reverse, CycleEnd.completed⟩
  | mb :: rest, d, acc =>
    match isExcludedO mb.flags mb.rawName ef en with
    | none => ⟨d, acc.reverse, CycleEnd.raised mb.rawName⟩
    | some true => runCycleAux ef en rest d acc
    | some false =>
      let prior := lookupD d mb.rawName
      let oc := checkMailbox prior mb
      let d2 := setD d mb.rawName oc.newBoundary
      if oc.searchRaised then
        ⟨d2, ((mb.rawName, oc) :: acc).reverse, CycleEnd.raised mb.rawName⟩
      else runCycleAux ef en rest d2 ((mb.rawName, oc) :: acc)

/-- One cycle over a listed mailbox sequence, starting from a given
boundary dictionary. -/
def runCycle (ef : List String) (en : List (List Nat))
    (d : List (String × Nat)) (mbs : List MailboxData) : CycleResult :=
  runCycleAux ef en mbs d []

/-! ## Scheduler: retry and rescheduling in _do_check
(src/email_checker.py lines 284-312) -/

/-- Lowercase a configuration value, as configparser does before its
boolean-states lookup. -/
def lowerStr (s : String) : String := String.mk (s.toList.map Char.toLower)

/-- configparser getboolean: the recognized boolean literals, none for
anything else (a ValueError in the source). -/
def getbooleanOpt (s : String) : Option Bool :=
  let t := lowerStr s
  if t = "1" ∨ t = "yes" ∨ t = "true" ∨ t = "on" then some true
  else if t = "0" ∨ t = "no" ∨ t = "false" ∨ t = "off" then some false
  else none

/-- The period test both schedulers use: getboolean of the period,
with a ValueError (an unrecognized literal, such as a numeric period)
treated as enabled. -/
def periodEnabled (s : String) : Bool := ((getbooleanOpt s).getD true : Bool)

/-- configparser getint for an unsigned decimal literal; none models
the ValueError int raises on anything else. -/
def getintOpt (s : String) : Option Nat :=
  if s ≠ "" ∧ s.toList.all Char.isDigit then
    some (s.toList.foldl (fun a c => 10 * a + (c.toNat - 48)) 0)
  else none

/-- What one connection attempt of _do_check does: the try block runs
to completion, or raises an error that is of the transient class
(OSError or the protocol abort) or not. -/
inductive CycleRun where
  | success
  | raise (transient : Bool) (msg : String)
deriving DecidableEq

/-- How the scheduler leaves _do_check: a one-shot timer armed for the
next cycle, the exit signal enqueued (single-shot run), the error
signal enqueued with the error text (the event loop then raises and
stops; nothing further is ever scheduled), or no attempt was supplied
to the model. -/
inductive SchedResult where
  | scheduledNext (delaySec : Nat)
  | exitSignal
  | failed (msg : String)
  | noAttempt
deriving DecidableEq

/-- The scheduling tail of a successfully completed cycle: if the
period is enabled, arm a timer for getint of the period (a period
that getboolean rejects and getint also rejects raises inside the try
block and escalates as an error); otherwise enqueue the exit
signal. -/
def afterSuccess (p : String) : List Nat × SchedResult :=
  if periodEnabled p then
    match getintOpt p with
    | some n => ([], SchedResult.scheduledNext n)
    | none => ([], SchedResult.failed "ValueError")
  else ([], SchedResult.exitSignal)

/-- The retry structure of _do_check: the list supplies the outcome of
each successive connection attempt, the Bool is the retry parameter
(true on the first call).  A transient-class error with retry still
available sleeps ten seconds (recorded in the first component) and
reruns the whole body, from reconnection, with retry exhausted; any
other raise enqueues the error and ends scheduling. -/
def do_check : List CycleRun → Bool → String → List Nat × SchedResult
  | [], _, _ => ([], SchedResult.noAttempt)
  | CycleRun.success :: _, _, p => afterSuccess p
  | CycleRun.raise t m :: rest, retry, p =>
    if t ∧ retry then
      let r := do_check rest false p
      (10 :: r.1, r.2)
    else ([], SchedResult.failed m)

/-! ## EventLoop: EmailChecker.wait (src/email_checker.py lines 354-383) -/

/-- The control signals the queue can carry (the integer constants of
the source). -/
inductive Signal where
  | pause
  | pauseInternal
  | resume
  | resumeInternal
  | exitSig
  | errorSig
deriving DecidableEq

/-- What the wait loop does with one dequeued signal. -/
inductive LoopAction where
  | cancelled (cancelAll : Bool)
  | startedCheck (power : Bool)
  | ignoredSignal
  | exited
  | raisedSystemExit
deriving DecidableEq

/-- One iteration of the wait loop on a dequeued item: pause signals
cancel (a full cancel only for the external pause); resume signals
first test the period as a boolean and are ignored when it parses
false, and otherwise start checking (with power watching only for the
external resume); the exit signal ends the loop; the error signal
cancels and raises SystemExit. -/
def waitStep (periodStr : String) (item : Signal) : LoopAction :=
  match item with
  | Signal.pause => LoopAction.cancelled true
  | Signal.pauseInternal => LoopAction.cancelled false
  | Signal.resume =>
    if periodEnabled periodStr then LoopAction.startedCheck true
    else LoopAction.ignoredSignal
  | Signal.resumeInternal =>
    if periodEnabled periodStr then LoopAction.startedCheck false
    else LoopAction.ignoredSignal
  | Signal.exitSig => LoopAction.exited
  | Signal.errorSig => LoopAction.raisedSystemExit

/-- Nonempty all-digit string test, used to state which period values
are numeric literals. -/
def isNumericString (s : String) : Bool :=
  !s.isEmpty && s.toList.all Char.isDigit

/-! ## Specification view of the base64 bit stream

These definitions are not part of the embedding of the source; they
state what a base64-encoded UTF-16BE unit stream is in the plainest
form (bits of the 6-bit groups, cut into 16-bit units), so that the
streaming accumulator b64Units transcribed from the codec can be
proved equal to it. -/

/-- Big-endian bit list of a number over a given width. -/
def toBitsBE : Nat → Nat → List Bool
  | 0, _ => []
  | w + 1, n => toBitsBE w (n / 2) ++ [decide (n % 2 = 1)]

/-- Value of a big-endian bit list. -/
def bitsVal (bs : List Bool) : Nat :=
  bs.foldl (fun a b => 2 * a + (if b then 1 else 0)) 0

/-- Cut a bit stream into 16-bit units; fewer than 16 bits remain at
the end, and they must be fewer than 6 and all zero. -/
def chunk16 (bs : List Bool) : Option (List Nat) :=
  if _h : bs.length < 16 then
    if 6 ≤ bs.length then none
    else if bs.any id then none
    else some []
  else
    match chunk16 (bs.drop 16) with
    | none => none
    | some r => some (bitsVal (bs.take 16) :: r)
termination_by bs.length
decreasing_by simp; omega

/-! ## Lemmas about the decoder loop -/

/-- Characters before the first ampersand pass through unchanged and
prefix whatever the rest decodes to. -/
theorem dec7Aux_pass (pre : List Char) (l : List Char) (h : '&' ∉ pre) :
    dec7Aux (pre ++ l) none = (dec7Aux l none).map (fun r => pre.map Char.toNat ++ r) := by
  induction pre with
  | nil =>
    simp only [List.nil_append, List.map_nil]
    cases dec7Aux l none <;> simp
  | cons c cs ih =>
    have hc : c ≠ '&' := fun hh => h (hh ▸ List.mem_cons_self c cs)
    have hcs : '&' ∉ cs := fun hm => h (List.mem_cons_of_mem c hm)
    rw [List.cons_append]
    show (if c = '&' then dec7Aux (cs ++ l) (some [])
      else (dec7Aux (cs ++ l) none).map (fun r => c.toNat :: r)) = _
    rw [if_neg hc, ih hcs]
    cases dec7Aux l none <;> simp

/-- Inside a shifted region, characters up to the first minus sign are
accumulated onto the region body. -/
theorem dec7Aux_region (content : List Char) : ∀ (acc rest : List Char), '-' ∉ content →
    dec7Aux (content ++ rest) (some acc) = dec7Aux rest (some (acc ++ content)) := by
  induction content with
  | nil => intro acc rest _; simp
  | cons c cs ih =>
    intro acc rest h
    have hc : c ≠ '-' := fun hh => h (hh ▸ List.mem_cons_self c cs)
    have hcs : '-' ∉ cs := fun hm => h (List.mem_cons_of_mem c hm)
    rw [List.cons_append]
    show (if c = '-' then _ else dec7Aux (cs ++ rest) (some (acc ++ [c]))) = _
    rw [if_neg hc, ih (acc ++ [c]) rest hcs]
    simp

/-- A region that never sees a minus sign swallows the rest of the
input and the pending content is dropped. -/
theorem dec7Aux_drop (suf : List Char) : ∀ acc : List Char, '-' ∉ suf →
    dec7Aux suf (some acc) = some [] := by
  induction suf with
  | nil => intro acc _; rfl
  | cons c cs ih =>
    intro acc h
    have hc : c ≠ '-' := fun hh => h (hh ▸ List.mem_cons_self c cs)
    have hcs : '-' ∉ cs := fun hm => h (List.mem_cons_of_mem c hm)
    show (if c = '-' then _ else dec7Aux cs (some (acc ++ [c]))) = _
    rw [if_neg hc]
    exact ih (acc ++ [c]) hcs

/-- Unfolding step: an ampersand outside a region opens a region with
empty body. -/
theorem dec7Aux_amp (l : List Char) : dec7Aux ('&' :: l) none = dec7Aux l (some []) := by
  show (if '&' = '&' then dec7Aux l (some [])
    else (dec7Aux l none).map (fun r => '&'.toNat :: r)) = _
  rw [if_pos rfl]

/-- Unfolding step: a minus sign closes a non-empty region, which is
decoded through the utf_7 codec after the comma substitution. -/
theorem dec7Aux_minus (rest content : List Char) (hne : content ≠ []) :
    dec7Aux ('-' :: rest) (some content)
      = match utf7SegmentDecode (content.map swapComma) with
        | none => none
        | some seg => (dec7Aux rest none).map (fun r => seg ++ r) := by
  show (if '-' = '-' then
      if content = [] then (dec7Aux rest none).map (fun r => '&'.toNat :: r)
      else match utf7SegmentDecode (content.map swapComma) with
        | none => none
        | some seg => (dec7Aux rest none).map (fun r => seg ++ r)
    else dec7Aux rest (some (content ++ ['-']))) = _
  rw [if_pos rfl, if_neg hne]

/-- C6: decode_imap_utf7 passes characters outside shifted regions
through unchanged; an ampersand starts a shifted region that runs to
the next minus sign; the empty region decodes to a literal ampersand;
and a non-empty region is decoded by substituting slash for comma and
handing the content to the base64/UTF-16BE decoding of the utf_7
codec, prefixed by the preceding plain characters and followed by the
decoding of the remaining input. -/
theorem C6_utf7_decoder_structure :
    (∀ cs : List Char, '&' ∉ cs →
      decode_imap_utf7 (String.mk cs) = some (cs.map Char.toNat))
    ∧ decode_imap_utf7 "&-" = some ['&'.toNat]
    ∧ (∀ pre content rest : List Char, '&' ∉ pre → '-' ∉ content → content ≠ [] →
      decode_imap_utf7 (String.mk (pre ++ ('&' :: (content ++ '-' :: rest)))) =
        Option.bind (utf7SegmentDecode (content.map swapComma)) (fun seg =>
          Option.map (fun r => pre.map Char.toNat ++ (seg ++ r))
            (decode_imap_utf7 (String.mk rest)))) := by
  refine ⟨?_, by decide, ?_⟩
  · intro cs h
    have h1 := dec7Aux_pass cs [] h
    rw [List.append_nil] at h1
    show dec7Aux cs none = _
    rw [h1]
    simp [dec7Aux]
  · intro pre content rest hpre hcon hne
    show dec7Aux (pre ++ ('&' :: (content ++ '-' :: rest))) none = _
    rw [dec7Aux_pass pre ('&' :: (content ++ '-' :: rest)) hpre, dec7Aux_amp,
      dec7Aux_region content [] ('-' :: rest) hcon, List.nil_append,
      dec7Aux_minus rest content hne]
    show _ = Option.bind (utf7SegmentDecode (content.map swapComma)) (fun seg =>
        Option.map (fun r => pre.map Char.toNat ++ (seg ++ r)) (dec7Aux rest none))
    cases utf7SegmentDecode (content.map swapComma) <;>
      cases dec7Aux rest none <;> simp

/-- Witness for C6: a concrete name with a plain prefix, one shifted
region and a plain suffix decodes as the structure theorem says, to
the letter a, U+00ED, the letter b; and a fully plain name decodes to
itself. -/
theorem C6_witness :
    decode_imap_utf7 (String.mk ("a".toList ++ ('&' :: ("AO0".toList ++ '-' :: "b".toList))))
      = some [97, 237, 98]
    ∧ decode_imap_utf7 (String.mk "plain".toList) = some ("plain".toList.map Char.toNat) := by
  constructor
  · have h := C6_utf7_decoder_structure.2.2 "a".toList "AO0".toList "b".toList
      (by decide) (by decide) (by decide)
    rw [h]
    decide
  · exact C6_utf7_decoder_structure.1 "plain".toList (by decide)

/-- C10: an input that ends inside a shifted region (an ampersand
with no later minus sign) has that whole region, the ampersand
included, silently dropped from the output, which is still returned
without error. -/
theorem C10_unterminated_region_dropped :
    (∀ pre suf : List Char, '&' ∉ pre → '-' ∉ suf →
      decode_imap_utf7 (String.mk (pre ++ '&' :: suf)) = some (pre.map Char.toNat))
    ∧ decode_imap_utf7 "a&AO" = some ['a'.toNat] := by
  refine ⟨?_, by decide⟩
  intro pre suf hpre hsuf
  show dec7Aux (pre ++ '&' :: suf) none = _
  rw [dec7Aux_pass pre ('&' :: suf) hpre, dec7Aux_amp, dec7Aux_drop suf [] hsuf]
  simp

/-- Witness for C10 at a concrete input. -/
theorem C10_witness :
    decode_imap_utf7 (String.mk (['x', 'y'] ++ '&' :: ['A', 'B']))
      = some (['x', 'y'].map Char.toNat) :=
  C10_unterminated_region_dropped.1 ['x', 'y'] ['A', 'B'] (by decide) (by decide)

/-! ## Lemmas about the boundary dictionary -/

/-- Reading back the key just stored yields the stored value. -/
theorem lookupD_setD_self (d : List (String × Nat)) (k : String) (v : Nat) :
    lookupD (setD d k v) k = v := by
  induction d with
  | nil => simp [setD, lookupD]
  | cons p rest ih =>
    by_cases h : p.1 = k
    · simp [setD, lookupD, h]
    · simp only [setD]
      rw [if_neg h]
      simp only [lookupD]
      rw [if_neg h]
      exact ih

/-- Storing one key leaves every other key unchanged. -/
theorem lookupD_setD_ne (d : List (String × Nat)) (k q : String) (v : Nat)
    (h : k ≠ q) : lookupD (setD d k v) q = lookupD d q := by
  induction d with
  | nil => simp [setD, lookupD, h]
  | cons p rest ih =>
    by_cases hp : p.1 = k
    · simp only [setD]
      rw [if_pos hp]
      simp only [lookupD]
      rw [if_neg h, if_neg (hp ▸ h)]
    · simp only [setD]
      rw [if_neg hp]
      simp only [lookupD]
      by_cases hq : p.1 = q
      · rw [if_pos hq, if_pos hq]
      · rw [if_neg hq, if_neg hq]
        exact ih

/-- After a sequence of advance calls, the stored value for a key is
the last value supplied for that key, or the initial value if none
was. -/
theorem applyOps_lookup (ops : List (String × Nat)) :
    ∀ (d : List (String × Nat)) (k : String),
      lookupD (applyOps d ops) k = lastD (valuesFor ops k) (lookupD d k) := by
  induction ops with
  | nil => intro d k; rfl
  | cons p rest ih =>
    intro d k
    obtain ⟨k2, v⟩ := p
    show lookupD (applyOps (advance d k2 v) rest) k = _
    rw [ih (advance d k2 v) k]
    by_cases h : k2 = k
    · subst h
      have hv : valuesFor ((k2, v) :: rest) k2 = v :: valuesFor rest k2 := by
        simp [valuesFor]
      rw [hv]
      show _ = lastD (valuesFor rest k2) v
      rw [show lookupD (advance d k2 v) k2 = v from lookupD_setD_self d k2 v]
    · have hv : valuesFor ((k2, v) :: rest) k = valuesFor rest k := by
        simp [valuesFor, h]
      rw [hv, show lookupD (advance d k2 v) k = lookupD d k from lookupD_setD_ne d k2 k v h]

/-- Head of a non-decreasing chain is at most the last element. -/
theorem chain_le_lastD (l : List Nat) : ∀ d : Nat,
    List.Chain' (· ≤ ·) (d :: l) → d ≤ lastD l d := by
  induction l with
  | nil => intro d _; exact Nat.le_refl d
  | cons v vs ih =>
    intro d h
    rw [List.chain'_cons] at h
    exact Nat.le_trans h.1 (ih v h.2)

/-- Last element of a concatenation. -/
theorem lastD_append (a : List Nat) : ∀ (b : List Nat) (d : Nat),
    lastD (a ++ b) d = lastD b (lastD a d) := by
  induction a with
  | nil => intro b d; rfl
  | cons x xs ih => intro b d; exact ih b x

/-- A chain over a prefix and a suffix keeps chaining when the prefix
is collapsed to its last element. -/
theorem chain_shift (xs : List Nat) : ∀ (d : Nat) (b : List Nat),
    List.Chain' (· ≤ ·) (d :: (xs ++ b)) → List.Chain' (· ≤ ·) (lastD xs d :: b) := by
  induction xs with
  | nil => intro d b h; exact h
  | cons y ys ih =>
    intro d b h
    rw [List.cons_append, List.chain'_cons] at h
    exact ih y b h.2

/-- In a non-decreasing chain, the last element of a prefix is at most
the last element of the whole list. -/
theorem chain_lastD_mono (a b : List Nat)
    (h : List.Chain' (· ≤ ·) (a ++ b)) : lastD a 0 ≤ lastD (a ++ b) 0 := by
  rw [lastD_append]
  cases a with
  | nil =>
    show (0 : Nat) ≤ lastD b 0
    exact Nat.zero_le _
  | cons x xs =>
    show lastD xs x ≤ lastD b (lastD xs x)
    rw [List.cons_append] at h
    exact chain_le_lastD b (lastD xs x) (chain_shift xs x b h)

/-- C3: starting from the empty dictionary of a fresh process, over
any sequence of advance calls whose values for a key are increasing
or equal, the stored boundary for that key never decreases from any
prefix of the sequence to the whole sequence; and immediately after
advance of a key to 42, windowFor of that key reports a prior
boundary of 42. -/
theorem C3_boundary_never_decreases :
    (∀ (l1 l2 : List (String × Nat)) (k : String),
        List.Chain' (· ≤ ·) (valuesFor (l1 ++ l2) k) →
        lookupD (applyOps [] l1) k ≤ lookupD (applyOps [] (l1 ++ l2)) k)
    ∧ (∀ (d : List (String × Nat)) (k : String),
        windowFor (advance d k 42) k = (true, 42)) := by
  constructor
  · intro l1 l2 k hch
    rw [applyOps_lookup, applyOps_lookup]
    show lastD (valuesFor l1 k) 0 ≤ lastD (valuesFor (l1 ++ l2) k) 0
    have hv : valuesFor (l1 ++ l2) k = valuesFor l1 k ++ valuesFor l2 k := by
      simp [valuesFor, List.filter_append]
    rw [hv] at hch ⊢
    exact chain_lastD_mono _ _ hch
  · intro d k
    show (lookupD (setD d k 42) k != 0, lookupD (setD d k 42) k) = (true, 42)
    rw [lookupD_setD_self]
    rfl

/-- Witness for C3: a concrete increasing-or-equal advance sequence
for one key, split after its first call. -/
theorem C3_witness :
    List.Chain' (· ≤ ·)
      (valuesFor ([("INBOX", 5)] ++ [("INBOX", 5), ("INBOX", 9)]) "INBOX")
    ∧ lookupD (applyOps [] [("INBOX", 5)]) "INBOX"
        ≤ lookupD (applyOps [] ([("INBOX", 5)] ++ [("INBOX", 5), ("INBOX", 9)])) "INBOX" :=
  ⟨by rw [show valuesFor ([("INBOX", 5)] ++ [("INBOX", 5), ("INBOX", 9)]) "INBOX"
        = [5, 5, 9] from rfl]
      simp [List.chain'_cons],
    C3_boundary_never_decreases.1 [("INBOX", 5)] [("INBOX", 5), ("INBOX", 9)] "INBOX"
      (by rw [show valuesFor ([("INBOX", 5)] ++ [("INBOX", 5), ("INBOX", 9)]) "INBOX"
            = [5, 5, 9] from rfl]
          simp [List.chain'_cons])⟩

/-! ## C5: mailbox exclusion -/

/-- C5: a mailbox is excluded exactly when some flag is in the
excluded-flags set, or some flag is the non-selectable marker, or the
decoded unquoted name is in the excluded-names set; and a mailbox
carrying the non-selectable marker is excluded whatever the name
lists are. -/
theorem C5_mailbox_filter (fl : List String) (raw : String)
    (ef : List String) (en : List (List Nat)) :
    ("\\Noselect" ∈ fl → isExcludedO fl raw ef en = some true)
    ∧ (∀ nm : List Nat, decode_imap_utf7 (stripQuotes raw) = some nm →
        (isExcludedO fl raw ef en = some true ↔
          (∃ f ∈ fl, f ∈ ef) ∨ "\\Noselect" ∈ fl ∨ nm ∈ en)) := by
  have hiff : (fl.any (fun f => decide (f ∈ ef ∨ f = "\\Noselect")) = true)
      ↔ ((∃ f ∈ fl, f ∈ ef) ∨ "\\Noselect" ∈ fl) := by
    rw [List.any_eq_true]
    constructor
    · rintro ⟨f, hf, hor⟩
      rw [decide_eq_true_eq] at hor
      rcases hor with h1 | h2
      · exact Or.inl ⟨f, hf, h1⟩
      · exact Or.inr (h2 ▸ hf)
    · rintro (⟨f, hf, h1⟩ | h2)
      · exact ⟨f, hf, by simp [h1]⟩
      · exact ⟨"\\Noselect", h2, by simp⟩
  constructor
  · intro h
    simp only [isExcludedO]
    rw [if_pos (hiff.mpr (Or.inr h))]
  · intro nm hnm
    by_cases hany : fl.any (fun f => decide (f ∈ ef ∨ f = "\\Noselect")) = true
    · simp only [isExcludedO]
      rw [if_pos hany]
      constructor
      · intro _
        rcases hiff.mp hany with h1 | h2
        · exact Or.inl h1
        · exact Or.inr (Or.inl h2)
      · intro _
        rfl
    · simp only [isExcludedO]
      rw [if_neg hany, hnm]
      show some (decide (nm ∈ en)) = some true ↔ _
      constructor
      · intro h
        have hd : decide (nm ∈ en) = true := by injection h
        exact Or.inr (Or.inr (of_decide_eq_true hd))
      · rintro (h1 | h2 | h3)
        · exact absurd (hiff.mpr (Or.inl h1)) hany
        · exact absurd (hiff.mpr (Or.inr h2)) hany
        · rw [decide_eq_true h3]

/-- Witness for C5: a non-selectable mailbox is excluded with empty
name lists, and a mailbox whose decoded name is listed is excluded
with no matching flag. -/
theorem C5_witness :
    isExcludedO ["\\Noselect"] "\"Trash\"" [] [] = some true
    ∧ isExcludedO [] "\"Spam\"" [] [[83, 112, 97, 109]] = some true :=
  ⟨(C5_mailbox_filter ["\\Noselect"] "\"Trash\"" [] []).1 (by decide),
   ((C5_mailbox_filter [] "\"Spam\"" [] [[83, 112, 97, 109]]).2 [83, 112, 97, 109]
      (by decide)).mpr (Or.inr (Or.inr (by decide)))⟩

/-! ## Lemmas about checkMailbox -/

/-- The criterion recorded by checkMailbox is the one built from the
prior boundary, in every branch. -/
theorem checkMailbox_criterion (p : Nat) (mb : MailboxData) :
    (checkMailbox p mb).criterion = search_criteria p := by
  unfold checkMailbox
  split
  · split <;> rfl
  · rfl

/-- The boundary stored by checkMailbox is the server-reported next
identifier, in every branch, including the branch where the search
raises. -/
theorem checkMailbox_newBoundary (p : Nat) (mb : MailboxData) :
    (checkMailbox p mb).newBoundary = mb.uidnext := by
  unfold checkMailbox
  split
  · split <;> rfl
  · rfl

/-! ## C1 and C2 -/

/-- C1: with a positive prior boundary, a non-empty search result
whose last (maximal) identifier is below the boundary is discarded as
stale: no identifiers are kept, no fetch happens, no notifications
are emitted, and the boundary still becomes the server-reported next
identifier. -/
theorem C1_stale_result_discarded (b : Nat) (mb : MailboxData) (l : Nat)
    (hb : 0 < b) (hok : mb.searchOk = true)
    (hlast : mb.searchResult.getLast? = some l) (hlt : l < b) :
    (checkMailbox b mb).notifications = []
    ∧ (checkMailbox b mb).didFetch = false
    ∧ (checkMailbox b mb).keptUids = []
    ∧ (checkMailbox b mb).newBoundary = mb.uidnext := by
  have hstale : staleFilter b mb.searchResult = [] := by
    simp only [staleFilter]
    rw [hlast]
    show (if l < b then [] else mb.searchResult) = []
    rw [if_pos hlt]
  refine ⟨?_, ?_, ?_, ?_⟩ <;> simp [checkMailbox, hok, hstale]

/-- Witness for C1: prior boundary 100, search result with maximum
identifier 50 as in the specification example; zero messages are
reported and the boundary advances to the transport value 123. -/
theorem C1_witness :
    (checkMailbox 100 ⟨"\"INBOX\"", [], 123, true, [50], []⟩).notifications = []
    ∧ (checkMailbox 100 ⟨"\"INBOX\"", [], 123, true, [50], []⟩).newBoundary = 123 := by
  have h := C1_stale_result_discarded 100 ⟨"\"INBOX\"", [], 123, true, [50], []⟩
    50 (by decide) rfl rfl (by decide)
  exact ⟨h.1, h.2.2.2⟩

/-- C2: the search criterion is built from the boundary read before
the dictionary was advanced: it is the unconstrained unseen search
when the prior boundary is absent (zero) and the range-constrained
unseen search from the boundary otherwise; it does not depend on the
server-reported next identifier; the windowFor view agrees; and in a
cycle the prior value handed to the mailbox body is the dictionary
entry from before the update. -/
theorem C2_search_window (prior : Nat) (mb : MailboxData) :
    ((checkMailbox prior mb).criterion
        = if prior = 0 then "(UNSEEN)" else "(UNSEEN UID " ++ toString prior ++ ":*)")
    ∧ (∀ u : Nat, (checkMailbox prior { mb with uidnext := u }).criterion
        = (checkMailbox prior mb).criterion)
    ∧ (∀ (d : List (String × Nat)) (k : String),
        ((windowFor d k).1 = false → search_criteria (lookupD d k) = "(UNSEEN)")
        ∧ (∀ b : Nat, windowFor d k = (true, b) →
            search_criteria (lookupD d k) = "(UNSEEN UID " ++ toString b ++ ":*)"))
    ∧ (∀ (ef : List String) (en : List (List Nat)) (d : List (String × Nat)),
        isExcludedO mb.flags mb.rawName ef en = some false →
        (runCycle ef en d [mb]).outcomes.head?
          = some (mb.rawName, checkMailbox (lookupD d mb.rawName) mb)) := by
  refine ⟨?_, ?_, ?_, ?_⟩
  · rw [checkMailbox_criterion]
    unfold search_criteria
    by_cases h : prior = 0 <;> simp [h]
  · intro u
    rw [checkMailbox_criterion, checkMailbox_criterion]
  · intro d k
    constructor
    · intro h
      have h0 : lookupD d k = 0 := by
        have := h
        simp only [windowFor] at this
        simpa using this
      rw [h0]
      rfl
    · intro b h
      have h1 : lookupD d k = b := congrArg Prod.snd h
      have h2 : (lookupD d k != 0) = true := congrArg Prod.fst h
      have hb : lookupD d k ≠ 0 := by simpa using h2
      rw [h1] at hb ⊢
      unfold search_criteria
      rw [if_pos hb]
  · intro ef en d hex
    simp only [runCycle, runCycleAux, hex]
    by_cases hr : (checkMailbox (lookupD d mb.rawName) mb).searchRaised = true
    · rw [if_pos hr]
      rfl
    · rw [if_neg hr]
      rfl

/-- Witness for C2: a one-mailbox cycle with a stored prior boundary
7; the mailbox body receives exactly the stored prior value. -/
theorem C2_witness :
    (runCycle [] [] [("\"INBOX\"", 7)]
        [⟨"\"INBOX\"", [], 10, true, [8, 9], []⟩]).outcomes.head?
      = some ("\"INBOX\"",
          checkMailbox (lookupD [("\"INBOX\"", 7)] "\"INBOX\"")
            ⟨"\"INBOX\"", [], 10, true, [8, 9], []⟩) :=
  (C2_search_window 0 ⟨"\"INBOX\"", [], 10, true, [8, 9], []⟩).2.2.2 [] []
    [("\"INBOX\"", 7)] (by decide)

/-! ## C4: who updates the boundary, and when -/

/-- Keys that are not the raw name of any listed mailbox keep their
dictionary entry across a cycle. -/
theorem runCycleAux_frame (ef : List String) (en : List (List Nat))
    (mbs : List MailboxData) : ∀ (d : List (String × Nat))
    (acc : List (String × MailboxOutcome)) (k : String),
    (∀ mb ∈ mbs, mb.rawName ≠ k) →
    lookupD (runCycleAux ef en mbs d acc).dict k = lookupD d k := by
  induction mbs with
  | nil => intro d acc k _; rfl
  | cons mb rest ih =>
    intro d acc k h
    have hmb : mb.rawName ≠ k := h mb (List.mem_cons_self mb rest)
    have hrest : ∀ m ∈ rest, m.rawName ≠ k := fun m hm => h m (List.mem_cons_of_mem mb hm)
    cases hex : isExcludedO mb.flags mb.rawName ef en with
    | none => simp only [runCycleAux, hex]
    | some b =>
      cases b with
      | true =>
        simp only [runCycleAux, hex]
        exact ih d acc k hrest
      | false =>
        simp only [runCycleAux, hex]
        by_cases hr : (checkMailbox (lookupD d mb.rawName) mb).searchRaised = true
        · rw [if_pos hr]
          exact lookupD_setD_ne d mb.rawName k _ hmb
        · rw [if_neg hr]
          rw [ih _ _ k hrest]
          exact lookupD_setD_ne d mb.rawName k _ hmb

/-- Counterexample for C4: a cycle over one mailbox whose search
raises.  No successful search ever happens on the mailbox, yet its
boundary entry is changed from 3 to the server-reported 57, because
the source writes uid_dict before issuing the search. -/
theorem C4_counterexample :
    (runCycle [] [] [("\"INBOX\"", 3)]
        [⟨"\"INBOX\"", [], 57, false, [], []⟩]).ended = CycleEnd.raised "\"INBOX\""
    ∧ (∀ oc ∈ (runCycle [] [] [("\"INBOX\"", 3)]
        [⟨"\"INBOX\"", [], 57, false, [], []⟩]).outcomes, oc.2.searchRaised = true)
    ∧ lookupD (runCycle [] [] [("\"INBOX\"", 3)]
        [⟨"\"INBOX\"", [], 57, false, [], []⟩]).dict "\"INBOX\"" = 57
    ∧ lookupD [("\"INBOX\"", 3)] "\"INBOX\"" = 3 := by
  refine ⟨by decide, by decide, by decide, by decide⟩

/-- C4 amended: the boundary dictionary is mutated only by the cycle,
once per selected (non-excluded) mailbox, immediately after the
transport reports the next identifier and before the search runs:
unvisited keys are unchanged, an excluded mailbox changes nothing,
and a selected mailbox's entry becomes the server-reported next
identifier whether or not the search succeeds. -/
theorem C4_boundary_update_discipline :
    (∀ (ef : List String) (en : List (List Nat)) (d : List (String × Nat))
        (mbs : List MailboxData) (k : String), (∀ mb ∈ mbs, mb.rawName ≠ k) →
        lookupD (runCycle ef en d mbs).dict k = lookupD d k)
    ∧ (∀ (ef : List String) (en : List (List Nat)) (d : List (String × Nat))
        (mb : MailboxData), isExcludedO mb.flags mb.rawName ef en = some false →
        lookupD (runCycle ef en d [mb]).dict mb.rawName = mb.uidnext)
    ∧ (∀ (ef : List String) (en : List (List Nat)) (d : List (String × Nat))
        (mb : MailboxData), isExcludedO mb.flags mb.rawName ef en = some true →
        (runCycle ef en d [mb]).dict = d) := by
  refine ⟨?_, ?_, ?_⟩
  · intro ef en d mbs k h
    exact runCycleAux_frame ef en mbs d [] k h
  · intro ef en d mb hex
    simp only [runCycle, runCycleAux, hex]
    by_cases hr : (checkMailbox (lookupD d mb.rawName) mb).searchRaised = true
    · rw [if_pos hr]
      show lookupD (setD d mb.rawName _) mb.rawName = _
      rw [lookupD_setD_self, checkMailbox_newBoundary]
    · rw [if_neg hr]
      show lookupD (runCycleAux ef en [] (setD d mb.rawName _) _).dict mb.rawName = _
      show lookupD (setD d mb.rawName _) mb.rawName = _
      rw [lookupD_setD_self, checkMailbox_newBoundary]
  · intro ef en d mb hex
    simp only [runCycle, runCycleAux, hex]

/-- Witness for C4 amended: a selected mailbox with failing search
still gets its boundary set to the reported 57; and a key not listed
is untouched. -/
theorem C4_witness :
    lookupD (runCycle [] [] [("other", 9)]
        [⟨"\"INBOX\"", [], 57, false, [], []⟩]).dict "\"INBOX\"" = 57
    ∧ lookupD (runCycle [] [] [("other", 9)]
        [⟨"\"INBOX\"", [], 57, false, [], []⟩]).dict "other" = 9 := by
  constructor
  · exact C4_boundary_update_discipline.2.1 [] [] [("other", 9)]
      ⟨"\"INBOX\"", [], 57, false, [], []⟩ (by decide)
  · have h := C4_boundary_update_discipline.1 [] [] [("other", 9)]
      [⟨"\"INBOX\"", [], 57, false, [], []⟩] "other" (by decide)
    rw [h]
    rfl

/-! ## C8: notifications emitted for a kept search result -/

/-- Counterexample for C8: first run on a mailbox holding unseen
messages 5 and 7 and an already-seen message 6.  The search result
(the kept identifier list) has two entries, but the source fetches
the whole range from the first result onward and notifies once per
fetched header, so three notifications are emitted, not one per
search-result message. -/
theorem C8_counterexample :
    (checkMailbox 0 ⟨"\"INBOX\"", [], 8, true, [5, 7],
        [⟨5, false, "a", "s5"⟩, ⟨6, true, "b", "s6"⟩, ⟨7, false, "c", "s7"⟩]⟩).keptUids
      = [5, 7]
    ∧ (checkMailbox 0 ⟨"\"INBOX\"", [], 8, true, [5, 7],
        [⟨5, false, "a", "s5"⟩, ⟨6, true, "b", "s6"⟩, ⟨7, false, "c", "s7"⟩]⟩).notifications
      = [("a", "s5"), ("b", "s6"), ("c", "s7")]
    ∧ ¬ (checkMailbox 0 ⟨"\"INBOX\"", [], 8, true, [5, 7],
        [⟨5, false, "a", "s5"⟩, ⟨6, true, "b", "s6"⟩, ⟨7, false, "c", "s7"⟩]⟩).notifications.length
      = (checkMailbox 0 ⟨"\"INBOX\"", [], 8, true, [5, 7],
        [⟨5, false, "a", "s5"⟩, ⟨6, true, "b", "s6"⟩, ⟨7, false, "c", "s7"⟩]⟩).keptUids.length := by
  refine ⟨by decide, by decide, by decide⟩

/-- C8 amended: for a kept (non-empty, non-stale) search result, the
sink is invoked once per message returned by the header fetch over
the range from the first kept identifier to the end of the mailbox —
a set that contains every search-result message but may also contain
already-seen messages with larger identifiers — and, when the
transport lists messages in ascending identifier order, the
notifications are emitted in ascending identifier order. -/
theorem C8_notifications_per_fetched_header (prior : Nat) (mb : MailboxData)
    (u0 : Nat) (us : List Nat) (hok : mb.searchOk = true)
    (hkept : staleFilter prior mb.searchResult = u0 :: us) :
    (checkMailbox prior mb).notifications
        = (fetchHeaders mb.messages u0).map (fun m => (m.sender, m.subject))
    ∧ (List.Pairwise (fun a b : Message => a.uid < b.uid) mb.messages →
        List.Pairwise (· < ·) ((fetchHeaders mb.messages u0).map Message.uid)) := by
  constructor
  · simp [checkMailbox, hok, hkept]
  · intro hp
    rw [List.pairwise_map]
    exact List.Pairwise.sublist (List.filter_sublist _) hp

/-- Witness for C8 amended: the specification scenario of a first run
on a mailbox with unseen identifiers 5 and 6 — exactly two
notifications, for 5 then 6. -/
theorem C8_witness :
    (checkMailbox 0 ⟨"\"INBOX\"", [], 7, true, [5, 6],
        [⟨5, false, "alice", "hi"⟩, ⟨6, false, "bob", "yo"⟩]⟩).notifications
      = [("alice", "hi"), ("bob", "yo")] := by
  have h := C8_notifications_per_fetched_header 0
    ⟨"\"INBOX\"", [], 7, true, [5, 6],
      [⟨5, false, "alice", "hi"⟩, ⟨6, false, "bob", "yo"⟩]⟩ 5 [6] rfl (by decide)
  rw [h.1]
  decide

/-! ## C7: retry policy of the scheduler -/

/-- C7: a transient-class error on the first attempt sleeps the fixed
ten-second backoff and reruns the whole cycle exactly once with the
retry consumed; if that second attempt also raises (of either class)
the error is enqueued as the terminating condition, as it is
immediately when the first error is not of the transient class; a
successful retry proceeds to normal scheduling; and a failed result
is never a scheduled next cycle. -/
theorem C7_transient_retry_policy (m m2 : String) (t2 : Bool)
    (rest : List CycleRun) (p : String) :
    (do_check (CycleRun.raise true m :: rest) true p
        = (10 :: (do_check rest false p).1, (do_check rest false p).2))
    ∧ (do_check (CycleRun.raise true m :: CycleRun.raise t2 m2 :: rest) true p
        = ([10], SchedResult.failed m2))
    ∧ (do_check (CycleRun.raise false m :: rest) true p = ([], SchedResult.failed m))
    ∧ (do_check (CycleRun.raise true m :: CycleRun.success :: rest) true p
        = (10 :: (afterSuccess p).1, (afterSuccess p).2))
    ∧ (∀ delay : Nat, SchedResult.failed m ≠ SchedResult.scheduledNext delay) := by
  refine ⟨?_, ?_, ?_, ?_, ?_⟩
  · simp [do_check]
  · simp [do_check]
  · simp [do_check]
  · simp [do_check]
  · intro delay h
    exact SchedResult.noConfusion h

/-! ## C9: resume handling in the wait loop -/

/-- Counterexample for C9: the period value 0 is a numeric literal,
yet a resume signal is ignored with it, because configparser parses
0 as the boolean false before the numeric fallback is ever reached. -/
theorem C9_counterexample :
    isNumericString "0" = true
    ∧ waitStep "0" Signal.resume = LoopAction.ignoredSignal
    ∧ waitStep "0" Signal.resumeInternal = LoopAction.ignoredSignal
    ∧ (∀ power : Bool, LoopAction.ignoredSignal ≠ LoopAction.startedCheck power) := by
  refine ⟨by decide, by decide, by decide, by decide⟩

/-- C9 amended: a dequeued resume signal (external or internal) is
ignored exactly when the configured period parses as a boolean false
(one of 0, no, false, off, case-insensitively); otherwise — the
period parses as a boolean true, or is no recognized boolean literal
at all, such as a multi-digit number — checking is started again,
with power watching only for the external resume. -/
theorem C9_resume_only_when_enabled (p : String) :
    (waitStep p Signal.resume
        = if periodEnabled p then LoopAction.startedCheck true
          else LoopAction.ignoredSignal)
    ∧ (waitStep p Signal.resumeInternal
        = if periodEnabled p then LoopAction.startedCheck false
          else LoopAction.ignoredSignal)
    ∧ (periodEnabled p = false ↔ getbooleanOpt p = some false) := by
  refine ⟨rfl, rfl, ?_⟩
  unfold periodEnabled
  cases h : getbooleanOpt p with
  | none => simp
  | some b => cases b <;> simp

/-! ## The streaming accumulator equals plain 16-bit chunking -/

/-- Width of a big-endian bit list. -/
theorem length_toBitsBE (w : Nat) : ∀ n : Nat, (toBitsBE w n).length = w := by
  induction w with
  | zero => intro n; rfl
  | succ w ih =>
    intro n
    show (toBitsBE w (n / 2) ++ [decide (n % 2 = 1)]).length = w + 1
    rw [List.length_append, ih (n / 2)]
    rfl

/-- Appending one bit multiplies the value by two and adds the bit. -/
theorem bitsVal_append_bit (bs : List Bool) (b : Bool) :
    bitsVal (bs ++ [b]) = 2 * bitsVal bs + (if b then 1 else 0) := by
  simp [bitsVal, List.foldl_append]

/-- Round trip: the value of the bits of a number below the width
bound is the number. -/
theorem bitsVal_toBitsBE (w : Nat) : ∀ n : Nat, n < 2 ^ w →
    bitsVal (toBitsBE w n) = n := by
  induction w with
  | zero =>
    intro n h
    have hn : n = 0 := by simpa using Nat.lt_one_iff.mp (by simpa using h)
    subst hn
    rfl
  | succ w ih =>
    intro n h
    have hdiv : n / 2 < 2 ^ w := by
      rw [pow_succ] at h
      omega
    show bitsVal (toBitsBE w (n / 2) ++ [decide (n % 2 = 1)]) = n
    rw [bitsVal_append_bit, ih (n / 2) hdiv]
    rcases Nat.mod_two_eq_zero_or_one n with h2 | h2 <;> simp [h2] <;> omega

/-- Bits of a concatenated value are the concatenated bits. -/
theorem toBitsBE_append (b : Nat) : ∀ (a x y : Nat), y < 2 ^ b →
    toBitsBE a x ++ toBitsBE b y = toBitsBE (a + b) (x * 2 ^ b + y) := by
  induction b with
  | zero =>
    intro a x y h
    have hy : y = 0 := by simpa using Nat.lt_one_iff.mp (by simpa using h)
    subst hy
    simp [toBitsBE]
  | succ b ih =>
    intro a x y h
    have hy2 : y / 2 < 2 ^ b := by
      rw [pow_succ] at h
      omega
    show toBitsBE a x ++ (toBitsBE b (y / 2) ++ [decide (y % 2 = 1)]) = _
    rw [← List.append_assoc, ih a x (y / 2) hy2]
    have hmul : x * 2 ^ (b + 1) = x * 2 ^ b * 2 := by ring
    have hdiv : (x * 2 ^ (b + 1) + y) / 2 = x * 2 ^ b + y / 2 := by
      rw [hmul]
      omega
    have hmod : (x * 2 ^ (b + 1) + y) % 2 = y % 2 := by
      rw [hmul]
      omega
    show _ = toBitsBE (a + b + 1) (x * 2 ^ (b + 1) + y)
    show _ = toBitsBE (a + b) ((x * 2 ^ (b + 1) + y) / 2)
        ++ [decide ((x * 2 ^ (b + 1) + y) % 2 = 1)]
    rw [hdiv, hmod]

/-- A bit value is zero exactly when no bit is set (with any foldl
start, the result keeps the start's contribution). -/
theorem foldl_bits_eq_zero (bs : List Bool) : ∀ a : Nat,
    (bs.foldl (fun a b => 2 * a + (if b then 1 else 0)) a = 0
      ↔ (a = 0 ∧ bs.any id = false)) := by
  induction bs with
  | nil => intro a; simp
  | cons b bs ih =>
    intro a
    show (bs.foldl _ (2 * a + (if b then 1 else 0)) = 0 ↔ _)
    rw [ih (2 * a + (if b then 1 else 0))]
    cases b <;> simp


/-- Zero value means no set bit. -/
theorem bitsVal_eq_zero (bs : List Bool) : bitsVal bs = 0 ↔ bs.any id = false := by
  unfold bitsVal
  rw [foldl_bits_eq_zero bs 0]
  simp

/-- The streaming 16-bit extraction transcribed from the codec equals
plain chunking of the bit stream of the 6-bit groups, for any pending
state (fewer than 16 pending bits, value within them) and any run of
6-bit values. -/
theorem b64Units_eq_chunk16 (vals : List Nat) : ∀ bits buf : Nat,
    bits < 16 → buf < 2 ^ bits → (∀ v ∈ vals, v < 64) →
    b64Units vals bits buf = chunk16 (toBitsBE bits buf ++ vals.flatMap (toBitsBE 6)) := by
  induction vals with
  | nil =>
    intro bits buf hb hbuf _
    show (if 6 ≤ bits then none else if buf ≠ 0 then none else some [])
      = chunk16 (toBitsBE bits buf ++ ([] : List Nat).flatMap (toBitsBE 6))
    rw [show ([] : List Nat).flatMap (toBitsBE 6) = [] from rfl, List.append_nil]
    unfold chunk16
    rw [dif_pos (by rw [length_toBitsBE]; exact hb)]
    by_cases h6 : 6 ≤ bits
    · rw [if_pos h6, if_pos (by rw [length_toBitsBE]; exact h6)]
    · by_cases hz : buf = 0
      · subst hz
        have h0 : bitsVal (toBitsBE bits 0) = 0 :=
          bitsVal_toBitsBE bits 0 (pow_pos (by norm_num) bits)
        have hany := (bitsVal_eq_zero _).mp h0
        rw [if_neg h6]
        rw [if_neg (show ¬(0 : Nat) ≠ 0 from by simp)]
        rw [if_neg (show ¬6 ≤ (toBitsBE bits 0).length from by
          rw [length_toBitsBE]; exact h6)]
        rw [if_neg (show ¬(toBitsBE bits 0).any id = true from by simp [hany])]
      · have hval : bitsVal (toBitsBE bits buf) = buf := bitsVal_toBitsBE bits buf hbuf
        have hany : (toBitsBE bits buf).any id = true := by
          cases ha : (toBitsBE bits buf).any id with
          | true => rfl
          | false => exact absurd (hval.symm.trans ((bitsVal_eq_zero _).mpr ha)) hz
        rw [if_neg h6]
        rw [if_pos (show buf ≠ 0 from hz)]
        rw [if_neg (show ¬6 ≤ (toBitsBE bits buf).length from by
          rw [length_toBitsBE]; exact h6)]
        rw [if_pos hany]
  | cons v vs ih =>
    intro bits buf hb hbuf hv
    have h64 : (2 : Nat) ^ 6 = 64 := by norm_num
    have hv64 : v < 64 := hv v (List.mem_cons_self v vs)
    have hvs : ∀ u ∈ vs, u < 64 := fun u hu => hv u (List.mem_cons_of_mem v hu)
    have hcomb : toBitsBE bits buf ++ toBitsBE 6 v = toBitsBE (bits + 6) (buf * 64 + v) := by
      rw [toBitsBE_append 6 bits buf v (by rw [h64]; exact hv64), h64]
    have hbuf2 : buf * 64 + v < 2 ^ (bits + 6) := by
      rw [pow_add, h64]
      calc buf * 64 + v < buf * 64 + 64 := by omega
        _ = (buf + 1) * 64 := by ring
        _ ≤ 2 ^ bits * 64 := Nat.mul_le_mul_right 64 hbuf
    rw [show (v :: vs).flatMap (toBitsBE 6)
        = toBitsBE 6 v ++ vs.flatMap (toBitsBE 6) from rfl]
    rw [← List.append_assoc, hcomb]
    show (if 16 ≤ bits + 6 then
        match b64Units vs (bits + 6 - 16) ((buf * 64 + v) % 2 ^ (bits + 6 - 16)) with
        | none => none
        | some rest => some ((buf * 64 + v) / 2 ^ (bits + 6 - 16) :: rest)
      else b64Units vs (bits + 6) (buf * 64 + v)) = _
    by_cases h16 : 16 ≤ bits + 6
    · rw [if_pos h16]
      have hk16 : bits + 6 - 16 < 16 := by omega
      have hpos : 0 < 2 ^ (bits + 6 - 16) := pow_pos (by norm_num) _
      have hmodlt : (buf * 64 + v) % 2 ^ (bits + 6 - 16) < 2 ^ (bits + 6 - 16) :=
        Nat.mod_lt _ hpos
      have hdivlt : (buf * 64 + v) / 2 ^ (bits + 6 - 16) < 2 ^ 16 := by
        rw [Nat.div_lt_iff_lt_mul hpos]
        have hpp : (2 : Nat) ^ 16 * 2 ^ (bits + 6 - 16) = 2 ^ (bits + 6) := by
          rw [← pow_add]
          congr 1
          omega
        rw [hpp]
        exact hbuf2
      have hqr : (buf * 64 + v) / 2 ^ (bits + 6 - 16) * 2 ^ (bits + 6 - 16)
          + (buf * 64 + v) % 2 ^ (bits + 6 - 16) = buf * 64 + v := by
        rw [Nat.mul_comm]
        exact Nat.div_add_mod _ _
      have hsplit : toBitsBE (bits + 6) (buf * 64 + v)
          = toBitsBE 16 ((buf * 64 + v) / 2 ^ (bits + 6 - 16))
            ++ toBitsBE (bits + 6 - 16) ((buf * 64 + v) % 2 ^ (bits + 6 - 16)) := by
        rw [toBitsBE_append (bits + 6 - 16) 16 _ _ hmodlt]
        rw [show 16 + (bits + 6 - 16) = bits + 6 from by omega, hqr]
      rw [hsplit, List.append_assoc]
      unfold chunk16
      rw [dif_neg (by simp [List.length_append, length_toBitsBE])]
      have htake := List.take_left (toBitsBE 16 ((buf * 64 + v) / 2 ^ (bits + 6 - 16)))
        (toBitsBE (bits + 6 - 16) ((buf * 64 + v) % 2 ^ (bits + 6 - 16))
          ++ vs.flatMap (toBitsBE 6))
      have hdrop := List.drop_left (toBitsBE 16 ((buf * 64 + v) / 2 ^ (bits + 6 - 16)))
        (toBitsBE (bits + 6 - 16) ((buf * 64 + v) % 2 ^ (bits + 6 - 16))
          ++ vs.flatMap (toBitsBE 6))
      rw [length_toBitsBE] at htake hdrop
      rw [htake, hdrop, bitsVal_toBitsBE 16 _ hdivlt]
      rw [← ih (bits + 6 - 16) ((buf * 64 + v) % 2 ^ (bits + 6 - 16)) hk16 hmodlt hvs]
    · rw [if_neg h16]
      exact ih (bits + 6) (buf * 64 + v) (by omega) hbuf2 hvs

/-- Base64 values are six-bit values. -/
theorem b64Val_lt (c : Char) (v : Nat) (h : b64Val c = some v) : v < 64 := by
  unfold b64Val at h
  split_ifs at h with h1 h2 h3 h4 h5 <;> injection h with hval
  · have hc : c.toNat ≤ 90 := h1.2
    omega
  · have hc : c.toNat ≤ 122 := h2.2
    omega
  · have hc : c.toNat ≤ 57 := h3.2
    omega
  · omega
  · omega

/-- Every value produced by mapping the base64 table is a six-bit
value. -/
theorem mapB64_bound (content : List Char) : ∀ vals : List Nat,
    mapB64 content = some vals → ∀ v ∈ vals, v < 64 := by
  induction content with
  | nil =>
    intro vals h v hv
    have : vals = [] := by
      injection h with h2
      exact h2.symm
    subst this
    cases hv
  | cons c cs ih =>
    intro vals h v hv
    cases hb : b64Val c with
    | none => rw [show mapB64 (c :: cs) = match b64Val c, mapB64 cs with
        | some v, some vs => some (v :: vs) | _, _ => none from rfl, hb] at h
              cases hm : mapB64 cs <;> rw [hm] at h <;> cases h
    | some w =>
      cases hm : mapB64 cs with
      | none => rw [show mapB64 (c :: cs) = match b64Val c, mapB64 cs with
          | some v, some vs => some (v :: vs) | _, _ => none from rfl, hb, hm] at h
                cases h
      | some ws =>
        rw [show mapB64 (c :: cs) = match b64Val c, mapB64 cs with
          | some v, some vs => some (v :: vs) | _, _ => none from rfl, hb, hm] at h
        injection h with h2
        subst h2
        rcases List.mem_cons.mp hv with h3 | h3
        · subst h3
          exact b64Val_lt c v hb
        · exact ih ws hm v h3

/-- The decoding of one shifted region body is exactly: base64 values
of its characters, their bit stream cut into UTF-16 code units, then
surrogate combination into code points. -/
theorem utf7SegmentDecode_spec (content : List Char) (vals : List Nat)
    (h : mapB64 content = some vals) :
    utf7SegmentDecode content
      = (chunk16 (vals.flatMap (toBitsBE 6))).map combineSurrogates := by
  unfold utf7SegmentDecode
  rw [h]
  show (match b64Units vals 0 0 with
    | none => none
    | some units => some (combineSurrogates units)) = _
  rw [b64Units_eq_chunk16 vals 0 0 (by norm_num) (by norm_num)
    (mapB64_bound content vals h)]
  rw [show toBitsBE 0 0 = [] from rfl, List.nil_append]
  cases chunk16 (vals.flatMap (toBitsBE 6)) <;> rfl

/-- Witness for C7: a transient first failure followed by a
non-transient retry failure sleeps ten seconds and then fails with
the second error. -/
theorem C7_witness :
    do_check [CycleRun.raise true "socket reset", CycleRun.raise false "auth"] true "300"
      = ([10], SchedResult.failed "auth") :=
  (C7_transient_retry_policy "socket reset" "auth" false [] "300").2.1

/-- Witness for C9 amended: a numeric multi-digit period starts
checking on resume, a disabled period ignores the signal. -/
theorem C9_witness :
    waitStep "300" Signal.resume = LoopAction.startedCheck true
    ∧ waitStep "no" Signal.resume = LoopAction.ignoredSignal := by
  constructor
  · have h := (C9_resume_only_when_enabled "300").1
    rw [h]
    decide
  · have h := (C9_resume_only_when_enabled "no").1
    rw [h]
    decide
